import Mathlib

/-!
Verification of the NirantK/invest analysis scripts.

The Python sources are shallowly embedded over exact rationals:

* a pandas `Series` keyed by ticker becomes an association list
  `List (String × ℚ)`; a `DataFrame` of aligned price histories becomes a
  `List (String × List ℚ)` (one column per ticker, rows in order);
* floating point arithmetic is modeled by `ℚ`; decimal literals such as
  `0.33` are read as the decimal rationals they denote;
* the square root used by `numpy.std` and `np.sqrt(252)` is irrational, so
  it is abstracted: definitions take a function `sqrtF : ℚ → ℚ` standing
  for the float square root, and a constant `sqrt252 : ℚ` standing for
  `np.sqrt(252)`; theorems quantify over them, and concrete evaluations
  instantiate them where (and only where) the value does not matter or is
  exact (such as the square root of zero);
* network calls (`yfinance`, `httpx`) are modeled by an environment
  function from ticker to fetch outcome; an uncaught Python exception is
  modeled by `Except.error`.
-/

set_option maxRecDepth 4000

namespace Invest

/-! ## Association list utilities (pandas Series keyed by ticker) -/

/-- Map over the values of an association list, keeping the keys.
Models elementwise pandas Series and DataFrame operations. -/
def mapVal (g : String → α → β) (l : List (String × α)) : List (String × β) :=
  l.map (fun p => (p.1, g p.1 p.2))

/-- First entry with the given key, like a pandas index lookup. -/
def findPair (l : List (String × α)) (t : String) : Option (String × α) :=
  l.find? (fun p => p.1 == t)

/-- Value at a key, if present. -/
def findCol (l : List (String × α)) (t : String) : Option α :=
  (findPair l t).map (fun p => p.2)

/-- Value at a key with a default. -/
def lookupD (l : List (String × α)) (t : String) (d : α) : α :=
  ((findPair l t).map (fun p => p.2)).getD d

/-- Rational value at a key, defaulting to 0 for an absent key. -/
def lookupQ (l : List (String × ℚ)) (t : String) : ℚ :=
  lookupD l t 0

/-- Sum of the values, like `Series.sum()`. -/
def sumVals (l : List (String × ℚ)) : ℚ :=
  (l.map (fun p => p.2)).sum

/-! ## india/scripts/fetch_mf_nav.py -/

/-- The decoded JSON body returned by `api.mfapi.in/mf/<scheme_code>`:
a `meta` dict and a list of `data` entries, each entry a dict with keys
such as `nav` and `date`.  Dict values are strings, as in the API. -/
structure MFResponse where
  meta : List (String × String)
  data : List (List (String × String))

/-- The dict built by `get_latest_nav`. -/
structure LatestNav where
  scheme_code : Int
  scheme_name : Option String
  fund_house : Option String
  nav : Option ℚ
  date : Option String

/-- String lookup in a dict, like `dict.get(key)` returning `None` when
absent. -/
def dictGet (d : List (String × String)) (k : String) : Option String :=
  (d.find? (fun p => p.1 == k)).map (fun p => p.2)

/-- Embeds `get_latest_nav` (india/scripts/fetch_mf_nav.py, lines 29-41).
`parseF` stands for the Python `float` parser applied to the NAV string;
`latest = nav_data[0] if nav_data else {}`, and the `nav` field is
`float(latest.get("nav", 0)) if latest else None` (an empty dict is falsy,
so a present-but-empty first entry also yields `None`). -/
def get_latest_nav (parseF : String → ℚ) (scheme_code : Int)
    (resp : MFResponse) : LatestNav :=
  let meta := resp.meta
  let nav_data := resp.data
  let latest : List (String × String) := nav_data.headD []
  { scheme_code := scheme_code
    scheme_name := dictGet meta "scheme_name"
    fund_house := dictGet meta "fund_house"
    nav := if latest.isEmpty then none else
      some (match dictGet latest "nav" with
        | some s => parseF s
        | none => 0)
    date := dictGet latest "date" }

/-! ## us/scripts/us_portfolio_allocation.py : column statistics -/

/-- Daily returns of one column: `prices.pct_change(fill_method=None)`
followed by `.dropna()`, which drops the leading NaN row. -/
def pctChange (s : List ℚ) : List ℚ :=
  List.zipWith (fun prev cur => cur / prev - 1) s s.tail

/-- Embeds `calculate_returns`: daily returns of every column.  For an
aligned frame the dropped NaN row is exactly the first row. -/
def calculate_returns (prices : List (String × List ℚ)) :
    List (String × List ℚ) :=
  mapVal (fun _ s => pctChange s) prices

/-- Momentum of one column for a lookback: `prices.iloc[-1] /
prices.iloc[-lookback] - 1`, with the source guard that shrinks the
lookback to `len(prices)` when the history is shorter.  For an aligned
frame `len(prices)` is the column length. -/
def momCol (s : List ℚ) (lookback : Nat) : ℚ :=
  let lb := if s.length < lookback then s.length else lookback
  s.getD (s.length - 1) 0 / s.getD (s.length - lb) 0 - 1

/-- Embeds `calculate_momentum` columnwise. -/
def calculate_momentum (prices : List (String × List ℚ)) (lookback : Nat) :
    List (String × ℚ) :=
  mapVal (fun _ s => momCol s lookback) prices

/-- Sample variance with `ddof=1`, the exact part of `Series.std()`.
pandas returns NaN for fewer than two points; that case lies outside the
rational model and no theorem relies on it. -/
def sampleVar (xs : List ℚ) : ℚ :=
  if 2 ≤ xs.length then
    let m := xs.sum / xs.length
    (xs.map (fun x => (x - m) ^ 2)).sum / ((xs.length : ℚ) - 1)
  else 0

/-- Model of `Series.std()`: the abstract square root applied to the exact
sample variance. -/
def stdQ (sqrtF : ℚ → ℚ) (xs : List ℚ) : ℚ :=
  sqrtF (sampleVar xs)

/-- Downside volatility of one column (us_portfolio_allocation.py lines
137-147): the std of the strictly negative daily returns times
`np.sqrt(252)`, or `0.0001` when there is no negative return. -/
def dvolCol (sqrtF : ℚ → ℚ) (sqrt252 : ℚ) (r : List ℚ) : ℚ :=
  let negative_returns := r.filter (fun x => decide (x < 0))
  if negative_returns.length > 0 then
    stdQ sqrtF negative_returns * sqrt252
  else (1 : ℚ) / 10000

/-- Embeds `calculate_downside_volatility` columnwise. -/
def calculate_downside_volatility (sqrtF : ℚ → ℚ) (sqrt252 : ℚ)
    (returns : List (String × List ℚ)) : List (String × ℚ) :=
  mapVal (fun _ r => dvolCol sqrtF sqrt252 r) returns

/-- Pointwise combination of two Series sharing an index (pandas aligns by
key; all frames here carry the same keys). -/
def seriesBinop (op : ℚ → ℚ → ℚ) (l1 l2 : List (String × ℚ)) :
    List (String × ℚ) :=
  mapVal (fun t v => op v (lookupQ l2 t)) l1

/-- Scalar multiple of a Series. -/
def seriesScale (c : ℚ) (l : List (String × ℚ)) : List (String × ℚ) :=
  mapVal (fun _ v => c * v) l

/-- The four Series returned by `calculate_combined_score`. -/
structure ScoreBundle where
  score : List (String × ℚ)
  mom_3m : List (String × ℚ)
  mom_6m : List (String × ℚ)
  downside_vol : List (String × ℚ)

/-- Embeds `calculate_combined_score` (lines 222-237): score =
`(0.5 * mom_3m + 0.5 * mom_6m) / downside_vol` with lookbacks 63 and
126. -/
def calculate_combined_score (sqrtF : ℚ → ℚ) (sqrt252 : ℚ)
    (prices returns : List (String × List ℚ)) : ScoreBundle :=
  let mom_3m := calculate_momentum prices 63
  let mom_6m := calculate_momentum prices 126
  let downside_vol := calculate_downside_volatility sqrtF sqrt252 returns
  let combined_momentum :=
    seriesBinop (· + ·) (seriesScale (1/2) mom_3m) (seriesScale (1/2) mom_6m)
  let score := seriesBinop (· / ·) combined_momentum downside_vol
  { score := score, mom_3m := mom_3m, mom_6m := mom_6m,
    downside_vol := downside_vol }

/-- Embeds `calculate_sortino_weights` (lines 245-252): keep the strictly
positive scores and divide by their sum; empty result when none is
positive. -/
def calculate_sortino_weights (sortino : List (String × ℚ)) :
    List (String × ℚ) :=
  let positive_sortino := sortino.filter (fun p => decide (0 < p.2))
  if positive_sortino.isEmpty then []
  else mapVal (fun _ v => v / sumVals positive_sortino) positive_sortino

/-! ## Total return index constructions -/

/-- Dividend yield on the ex-date used by `fetch_total_return_index`
(us_portfolio_allocation.py lines 113-119): `dividends.iloc[i] /
close.iloc[i-1] if close.iloc[i-1] != 0 else 0`. -/
def divYield (c d : List ℚ) (i : Nat) : ℚ :=
  if c.getD (i - 1) 0 ≠ 0 then d.getD i 0 / c.getD (i - 1) 0 else 0

/-- The running `cumulative_dividends` value after processing row `i`:
`cumulative_dividends = (1 + cumulative_dividends) * (1 + div_yield) - 1`,
starting from `0.0` before row 1. -/
def cumDiv (c d : List ℚ) : Nat → ℚ
  | 0 => 0
  | i + 1 => (1 + cumDiv c d i) * (1 + divYield c d (i + 1)) - 1

/-- Embeds the compounded total-return index of
`us_portfolio_allocation.fetch_total_return_index` (also used verbatim in
canadian_nyse_only.py and nbs/oil_gas_comprehensive.py): row 0 keeps the
close, row `i > 0` is `close.iloc[i] * (1 + cumulative_dividends)`. -/
def totalReturnCompounded (c d : List ℚ) : List ℚ :=
  (List.range c.length).map (fun i =>
    match i with
    | 0 => c.getD 0 0
    | j + 1 => c.getD (j + 1) 0 * (1 + cumDiv c d (j + 1)))

/-- Row `k` of `(d / c.shift(1)).fillna(0)` in allocate.py: the first row
is NaN and becomes 0.  (With float data a nonzero dividend over a zero
close would be `inf`, which has no rational counterpart; the theorems
below never divide by a zero close.) -/
def shiftDivTerm (c d : List ℚ) (k : Nat) : ℚ :=
  if k = 0 then 0 else d.getD k 0 / c.getD (k - 1) 0

/-- Running `cumsum()` of the shifted dividend yields. -/
def cumsumTerms (c d : List ℚ) : Nat → ℚ
  | 0 => shiftDivTerm c d 0
  | i + 1 => cumsumTerms c d i + shiftDivTerm c d (i + 1)

/-- Embeds the vectorized total-return index of `allocate.fetch`
(allocate.py line 31): `tr = c * (1 + (d / c.shift(1)).fillna(0).cumsum())`.
-/
def totalReturnCumsum (c d : List ℚ) : List ℚ :=
  (List.range c.length).map (fun i => c.getD i 0 * (1 + cumsumTerms c d i))

/-! ## Data-fetch routines -/

/-- Outcome of `yf.Ticker(t).history(period=...)` for one ticker: either a
raised exception (HTTP error and the like) or a history with `Close` and
`Dividends` columns. -/
inductive FetchResult where
  | err (msg : String)
  | ok (close : List ℚ) (dividends : List ℚ)

/-- Embeds `us_portfolio_allocation.fetch_total_return_index` (lines
92-122): no `try`/`except`, so a raised error propagates and aborts the
whole call; a ticker whose history is empty is silently skipped.  The
final `pd.concat(...).dropna()` date alignment is outside this positional
model; the result is the list of per-ticker total-return series. -/
def usFetchTotalReturnIndex (env : String → FetchResult) :
    List String → Except String (List (String × List ℚ))
  | [] => Except.ok []
  | t :: rest =>
    match env t with
    | FetchResult.err e => Except.error e
    | FetchResult.ok c d =>
      match usFetchTotalReturnIndex env rest with
      | Except.error e => Except.error e
      | Except.ok tl =>
        if c.isEmpty then Except.ok tl
        else Except.ok ((t, totalReturnCompounded c d) :: tl)

/-- Embeds `canadian_nyse_only.fetch_total_return_index` (lines 42-78):
the per-ticker body is wrapped in `try`/`except Exception`, so an error
only skips that ticker and the remaining tickers are still processed. -/
def canadianFetchTotalReturnIndex (env : String → FetchResult) :
    List String → List (String × List ℚ)
  | [] => []
  | t :: rest =>
    match env t with
    | FetchResult.err _ => canadianFetchTotalReturnIndex env rest
    | FetchResult.ok c d =>
      if c.isEmpty then canadianFetchTotalReturnIndex env rest
      else (t, totalReturnCompounded c d) :: canadianFetchTotalReturnIndex env rest

/-- Embeds `allocate.fetch` (allocate.py lines 23-33): no `try`/`except`
either; an empty history is skipped via `continue`, an error propagates. -/
def allocateFetch (env : String → FetchResult) :
    List String → Except String (List (String × List ℚ))
  | [] => Except.ok []
  | t :: rest =>
    match env t with
    | FetchResult.err e => Except.error e
    | FetchResult.ok c d =>
      if c.isEmpty then allocateFetch env rest
      else
        match allocateFetch env rest with
        | Except.error e => Except.error e
        | Except.ok tl => Except.ok ((t, totalReturnCumsum c d) :: tl)

/-! ## us/scripts/us_portfolio_allocation.py : apply_constraints -/

/-- `TOTAL_CAPITAL` (line 64). -/
def TOTAL_CAPITAL : ℚ := 60000

/-- `SECTOR_CAP_PCT = 0.33` (line 75), read as the decimal rational. -/
def SECTOR_CAP_PCT : ℚ := 33 / 100

/-- `SECTOR_GOLD` (line 78). -/
def SECTOR_GOLD : List String := ["FNV", "AEM"]

/-- `SECTOR_SILVER` (line 79). -/
def SECTOR_SILVER : List String := ["PAAS", "HL"]

/-- `SECTOR_PRECIOUS_MIXED` (line 80). -/
def SECTOR_PRECIOUS_MIXED : List String := ["WPM"]

/-- `SECTOR_OIL_GAS` (line 81). -/
def SECTOR_OIL_GAS : List String :=
  ["XOM", "CVX", "CNQ", "SU", "CVE", "XLE", "ENB", "TRP", "KMI", "WMB",
   "OKE", "VLO", "PSX", "MPC", "DINO", "COP", "DVN", "OXY"]

/-- `SECTOR_EX_US_VALUE` (line 82). -/
def SECTOR_EX_US_VALUE : List String := ["AVDV", "DFIV", "IVAL"]

/-- `sum(allocation[t] for t in sector if t in allocation.index)`: the
lookup of an absent ticker defaults to 0, which is the same as skipping
it. -/
def sectorTotal (sector : List String) (a : List (String × ℚ)) : ℚ :=
  (sector.map (fun t => lookupQ a t)).sum

/-- Total of the allocation Series, `allocation.sum()`. -/
def allocTotal (a : List (String × ℚ)) : ℚ :=
  sumVals a

/-- Step 1 of the constraint pass: zero out positions strictly between 0
and the minimum; the Bool records whether anything changed. -/
def stepFloorMin (min_amount : ℚ) (a : List (String × ℚ)) :
    List (String × ℚ) × Bool :=
  (a.map (fun p => if 0 < p.2 ∧ p.2 < min_amount then (p.1, (0 : ℚ)) else p),
   a.any (fun p => decide (0 < p.2 ∧ p.2 < min_amount)))

/-- Step 2: cap positions above the maximum. -/
def stepCapMax (max_amount : ℚ) (a : List (String × ℚ)) :
    List (String × ℚ) × Bool :=
  (a.map (fun p => if p.2 > max_amount then (p.1, max_amount) else p),
   a.any (fun p => decide (p.2 > max_amount)))

/-- Step 3 for one sector: when the sector total exceeds the cap, scale
every position of the sector by `sector_cap_amount / sector_total`. -/
def stepSectorCap (sector : List String) (cap : ℚ) (a : List (String × ℚ)) :
    List (String × ℚ) × Bool :=
  let tot := sectorTotal sector a
  if tot > cap then
    (a.map (fun p => if sector.contains p.1 then (p.1, p.2 * (cap / tot)) else p),
     true)
  else (a, false)

/-- Step 4: renormalize to `TOTAL_CAPITAL` when the total is more than $1
off. -/
def stepRenormalize (a : List (String × ℚ)) : List (String × ℚ) × Bool :=
  let current_total := allocTotal a
  if |current_total - TOTAL_CAPITAL| > 1 then
    (a.map (fun p => (p.1, p.2 * (TOTAL_CAPITAL / current_total))), true)
  else (a, false)

/-- One pass of the `for iteration in range(100)` body (lines 271-336):
floor, cap, the five sector caps in source order, renormalize; the Bool
is the accumulated `changed` flag. -/
def onePass (min_amount max_amount : ℚ) (a : List (String × ℚ)) :
    List (String × ℚ) × Bool :=
  let cap := TOTAL_CAPITAL * SECTOR_CAP_PCT
  let s1 := stepFloorMin min_amount a
  let s2 := stepCapMax max_amount s1.1
  let g := stepSectorCap SECTOR_GOLD cap s2.1
  let sv := stepSectorCap SECTOR_SILVER cap g.1
  let mx := stepSectorCap SECTOR_PRECIOUS_MIXED cap sv.1
  let og := stepSectorCap SECTOR_OIL_GAS cap mx.1
  let ex := stepSectorCap SECTOR_EX_US_VALUE cap og.1
  let rn := stepRenormalize ex.1
  (rn.1, s1.2 || s2.2 || g.2 || sv.2 || mx.2 || og.2 || ex.2 || rn.2)

/-- The iteration: run passes while something changed, breaking as soon
as a pass changes nothing; the Bool is `true` exactly when the loop broke
early (converged) rather than exhausting the iteration bound. -/
def constraintLoop (min_amount max_amount : ℚ) :
    Nat → List (String × ℚ) → List (String × ℚ) × Bool
  | 0, a => (a, false)
  | n + 1, a =>
    let p := onePass min_amount max_amount a
    if p.2 then constraintLoop min_amount max_amount n p.1 else (p.1, true)

/-- Embeds `apply_constraints` (lines 255-342).  The first component is
the returned allocation; the second records whether the loop converged
(hit `break`) within the 100 iterations. -/
def apply_constraints (weights : List (String × ℚ))
    (min_allocation_pct max_allocation_pct : ℚ) :
    List (String × ℚ) × Bool :=
  let allocation := mapVal (fun _ w => w * TOTAL_CAPITAL) weights
  let min_amount := TOTAL_CAPITAL * min_allocation_pct
  let max_amount := TOTAL_CAPITAL * max_allocation_pct
  constraintLoop min_amount max_amount 100 allocation

/-! ## us/scripts/us_portfolio_allocation.py : drawdown metrics -/

/-- Helper for `price.cummax()` given the running maximum so far. -/
def runningMaxAux (m : ℚ) : List ℚ → List ℚ
  | [] => []
  | x :: xs => max m x :: runningMaxAux (max m x) xs

/-- `price.cummax()`: running maximum of the series. -/
def runningMax : List ℚ → List ℚ
  | [] => []
  | x :: xs => x :: runningMaxAux x xs

/-- `drawdown = (price - running_max) / running_max`, elementwise. -/
def drawdownSeries (p : List ℚ) : List ℚ :=
  List.zipWith (fun v m => (v - m) / m) p (runningMax p)

/-- Minimum of a list of rationals (`.min()` of a nonempty Series); 0 on
the empty list, a case the source never evaluates. -/
def listMinQ : List ℚ → ℚ
  | [] => 0
  | x :: xs => xs.foldl min x

/-- Run lengths of the maximal `True` runs of `in_drawdown`, carrying the
length of the current open run; mirrors the index bookkeeping of lines
183-195 (a period closes when a `False` arrives, and an open period at
the end of the series is also counted). -/
def ddRunsAux : List Bool → Nat → List Nat
  | [], 0 => []
  | [], n + 1 => [n + 1]
  | b :: bs, cur =>
    if b then ddRunsAux bs (cur + 1)
    else if cur > 0 then cur :: ddRunsAux bs 0 else ddRunsAux bs 0

/-- The list `drawdown_periods` of lines 183-195. -/
def ddRuns (bs : List Bool) : List Nat :=
  ddRunsAux bs 0

/-- Worst drawdown inside one 63-day window: `((window_prices -
window_max) / window_max).min()`. -/
def windowDD (w : List ℚ) : ℚ :=
  listMinQ (List.zipWith (fun v m => (v - m) / m) w (runningMax w))

/-- The `rolling_3m_dd` list of lines 201-207: for each `i` in
`range(63, len(price))` the worst drawdown of `price.iloc[i-63:i]`. -/
def rolling3mDDs (p : List ℚ) : List ℚ :=
  ((List.range p.length).filter (fun i => decide (63 ≤ i))).map
    (fun i => windowDD ((p.drop (i - 63)).take 63))

/-- The per-ticker dict built by `calculate_drawdown_metrics`. -/
structure DDMetrics where
  max_drawdown : ℚ
  max_dd_duration_days : Nat
  avg_dd_duration_days : ℚ
  current_drawdown : ℚ
  worst_rolling_3m_dd : ℚ

/-- Drawdown metrics of one price column (lines 163-217). -/
def drawdownMetricsCol (price : List ℚ) : DDMetrics :=
  let drawdown := drawdownSeries price
  let max_dd := listMinQ drawdown
  let current_dd := drawdown.getD (drawdown.length - 1) 0
  let in_drawdown := drawdown.map (fun x => decide (x < 0))
  let drawdown_periods := ddRuns in_drawdown
  let max_dd_duration := drawdown_periods.foldl Nat.max 0
  let avg_dd_duration : ℚ :=
    if drawdown_periods.isEmpty then 0
    else (drawdown_periods.map (fun n : Nat => (n : ℚ))).sum / drawdown_periods.length
  let rolling_3m_dd := rolling3mDDs price
  let worst_rolling_3m_dd :=
    if rolling_3m_dd.isEmpty then max_dd else listMinQ rolling_3m_dd
  { max_drawdown := max_dd
    max_dd_duration_days := max_dd_duration
    avg_dd_duration_days := avg_dd_duration
    current_drawdown := current_dd
    worst_rolling_3m_dd := worst_rolling_3m_dd }

/-- Embeds `calculate_drawdown_metrics`: the dict from ticker to metrics
(each column is `dropna()`-ed; aligned data has no interior NaN). -/
def calculate_drawdown_metrics (prices : List (String × List ℚ)) :
    List (String × DDMetrics) :=
  mapVal (fun _ p => drawdownMetricsCol p) prices

/-! ## us/scripts/allocate.py -/

/-- `series.iloc[-k]`, modeled positionally; pandas raises unless
`k ≤ len(series)`, so theorems only evaluate it on long-enough data. -/
def ilocNeg (s : List ℚ) (k : Nat) : ℚ :=
  s.getD (s.length - k) 0

/-- Stable descending insertion: a new entry goes before the first entry
with score not above its own, so earlier entries win ties, matching
`Series.nlargest` with its default `keep="first"`. -/
def insertDesc (x : String × ℚ) : List (String × ℚ) → List (String × ℚ)
  | [] => [x]
  | y :: ys => if y.2 ≤ x.2 then x :: y :: ys else y :: insertDesc x ys

/-- Scores sorted descending, stably. -/
def sortDesc (l : List (String × ℚ)) : List (String × ℚ) :=
  l.foldr insertDesc []

/-- `score.nlargest(top_n).index`. -/
def nlargestKeys (l : List (String × ℚ)) (n : Nat) : List String :=
  ((sortDesc l).take n).map (fun p => p.1)

/-- One pass of allocate.py lines 67-70: floor to `capital*min_w`, cap at
`capital*max_w`, then `alloc *= capital / alloc.sum()`. -/
def allocPass (capital min_w max_w : ℚ) (a : List (String × ℚ)) :
    List (String × ℚ) :=
  let floored := mapVal (fun _ v => if v < capital * min_w then capital * min_w else v) a
  let capped := mapVal (fun _ v => if v > capital * max_w then capital * max_w else v) floored
  mapVal (fun _ v => v * (capital / sumVals capped)) capped

/-- The `for _ in range(10)` loop of allocate.py. -/
def allocLoop (capital min_w max_w : ℚ) :
    Nat → List (String × ℚ) → List (String × ℚ)
  | 0, a => a
  | n + 1, a => allocLoop capital min_w max_w n (allocPass capital min_w max_w a)

/-- Momentum Series of allocate.py lines 42-46, one of the three
lookback pairs: `prices.iloc[-a] / prices.iloc[-b] - 1` columnwise. -/
def momPair (prices : List (String × List ℚ)) (a b : Nat) :
    List (String × ℚ) :=
  mapVal (fun _ s => ilocNeg s a / ilocNeg s b - 1) prices

/-- The selection stage of `allocate` (lines 39-64): compute the three
momenta, average them, divide by the annualized downside volatility of
the daily returns, take the `top_n` largest scores, and weight them by
the 12w-2w momentum clipped at 0.  `sqrtF` and `sqrt252` abstract the
float square root as described in the header. -/
def selectedAllocMom (sqrtF : ℚ → ℚ) (sqrt252 : ℚ)
    (prices : List (String × List ℚ)) (top_n : Nat) : List (String × ℚ) :=
  let ret := calculate_returns prices
  let mom_12_1 := momPair prices 21 252
  let mom_6_1 := momPair prices 21 126
  let mom_12w_2w := momPair prices 10 60
  let mom_avg := mapVal (fun t _ =>
    (lookupQ mom_12_1 t + lookupQ mom_6_1 t + lookupQ mom_12w_2w t) / 3) prices
  let dvol := mapVal (fun _ r =>
    stdQ sqrtF (r.filter (fun x => decide (x < 0))) * sqrt252) ret
  let score := seriesBinop (· / ·) mom_avg dvol
  let top_tickers := nlargestKeys score top_n
  top_tickers.map (fun t => (t, max (lookupQ mom_12w_2w t) 0))

/-- The allocation of `allocate` before the final rounding (lines 65-72
up to the `return`): normalize the clipped momenta to `capital` and run
the 10-pass min/max loop. -/
def allocatePreRound (sqrtF : ℚ → ℚ) (sqrt252 : ℚ)
    (prices : List (String × List ℚ)) (capital : ℚ) (top_n : Nat)
    (min_w max_w : ℚ) : List (String × ℚ) :=
  let alloc_mom := selectedAllocMom sqrtF sqrt252 prices top_n
  let alloc := mapVal (fun _ v => v / sumVals alloc_mom * capital) alloc_mom
  allocLoop capital min_w max_w 10 alloc

/-- `numpy.round`: round half to even, as `Series.round()` does. -/
def roundHalfEven (q : ℚ) : Int :=
  let f := Int.floor q
  let r := q - f
  if r < 1/2 then f
  else if r > 1/2 then f + 1
  else if f % 2 = 0 then f else f + 1

/-- Embeds `allocate` (allocate.py lines 36-72), returning the allocation
Series `(alloc / 1000).round() * 1000`.  The `scores` DataFrame also
returned by the source is only printed and is not modeled; the network
fetch is abstracted by passing the fetched price frame. -/
def allocate (sqrtF : ℚ → ℚ) (sqrt252 : ℚ)
    (prices : List (String × List ℚ)) (capital : ℚ) (top_n : Nat)
    (min_w max_w : ℚ) : List (String × ℚ) :=
  mapVal (fun _ v => (roundHalfEven (v / 1000) : ℚ) * 1000)
    (allocatePreRound sqrtF sqrt252 prices capital top_n min_w max_w)

/-! ## Concrete inputs used by witnesses and counterexamples -/

/-- A 126-day price path: rising one point a day from 100 with a single
dip to 90 on day 100, so exactly one daily return is strictly negative. -/
def fW : Nat → ℚ := fun i => if i = 100 then 90 else 100 + i

/-- The day-100-dip series as a list. -/
def sW : List ℚ := (List.range 126).map fW

/-- A 252-day price path rising from 100 with dips to 90 on days 100 and
150, so each ticker has two distinct strictly negative daily returns. -/
def fCE : Nat → ℚ := fun i => if i = 100 ∨ i = 150 then 90 else 100 + i

/-- The two-dip series as a list. -/
def seriesCE : List ℚ := (List.range 252).map fCE

/-- A one-ticker price frame (reachable in allocate.py, whose `fetch`
silently drops every ticker with an empty history). -/
def pricesCE : List (String × List ℚ) := [("AAA", seriesCE)]

/-! ## Helper lemmas -/

theorem mapVal_keys (g : String → α → β) (l : List (String × α)) :
    (mapVal g l).map (fun p => p.1) = l.map (fun p => p.1) := by
  simp [mapVal, List.map_map, Function.comp]

theorem findPair_mapVal (g : String → α → β) (l : List (String × α))
    (t : String) :
    findPair (mapVal g l) t = (findPair l t).map (fun p => (p.1, g p.1 p.2)) := by
  induction l with
  | nil => rfl
  | cons p l ih =>
    by_cases h : p.1 == t
    · simp [findPair, mapVal, List.find?, h]
    · simpa [findPair, mapVal, List.find?, h] using ih

theorem findPair_key (l : List (String × α)) (t : String) (p : String × α)
    (h : findPair l t = some p) : p.1 = t := by
  have := List.find?_some h
  simpa using this

theorem lookupQ_mapVal (g : String → α → ℚ) (l : List (String × α))
    (t : String) (s : α) (h : findPair l t = some (t, s)) :
    lookupQ (mapVal g l) t = g t s := by
  simp [lookupQ, lookupD, findPair_mapVal, h]

theorem sumVals_nil : sumVals ([] : List (String × ℚ)) = 0 := rfl

theorem sumVals_cons (p : String × ℚ) (l : List (String × ℚ)) :
    sumVals (p :: l) = p.2 + sumVals l := by
  simp [sumVals]

theorem sumVals_nonneg (l : List (String × ℚ)) (h : ∀ p ∈ l, 0 ≤ p.2) :
    0 ≤ sumVals l := by
  induction l with
  | nil => simp [sumVals_nil]
  | cons p l ih =>
    rw [sumVals_cons]
    have := h p (by simp)
    have := ih (fun q hq => h q (by simp [hq]))
    linarith

theorem sumVals_pos (l : List (String × ℚ)) (hne : l ≠ [])
    (h : ∀ p ∈ l, 0 < p.2) : 0 < sumVals l := by
  cases l with
  | nil => exact absurd rfl hne
  | cons p l =>
    rw [sumVals_cons]
    have := h p (by simp)
    have := sumVals_nonneg l (fun q hq => le_of_lt (h q (by simp [hq])))
    linarith

theorem sumVals_mapVal_div (l : List (String × ℚ)) (S : ℚ) :
    sumVals (mapVal (fun _ v => v / S) l) = sumVals l / S := by
  induction l with
  | nil => simp [sumVals_nil, mapVal]
  | cons p l ih =>
    rw [show mapVal (fun _ v => v / S) (p :: l) =
      (p.1, p.2 / S) :: mapVal (fun _ v => v / S) l from rfl,
      sumVals_cons, sumVals_cons, ih, add_div]

theorem getD_eq_zero_of_all_zero (d : List ℚ) (h : ∀ x ∈ d, x = 0)
    (k : Nat) : d.getD k 0 = 0 := by
  rw [List.getD_eq_getElem?_getD]
  rcases Nat.lt_or_ge k d.length with hk | hk
  · rw [List.getElem?_eq_getElem hk]
    exact h _ (List.getElem_mem hk)
  · rw [List.getElem?_eq_none hk]
    rfl

theorem map_getD_range (l : List ℚ) :
    (List.range l.length).map (fun i => l.getD i 0) = l := by
  induction l with
  | nil => rfl
  | cons a l ih =>
    rw [List.length_cons, List.range_succ_eq_map, List.map_cons,
      List.map_map]
    have heq : (List.range l.length).map ((fun i => (a :: l).getD i 0) ∘ Nat.succ)
        = (List.range l.length).map (fun i => l.getD i 0) := by
      apply List.map_congr_left
      intro i _
      simp [Function.comp, List.getD_cons_succ]
    rw [heq, ih]
    rfl

/-! ## C10 : get_latest_nav on an empty data list -/

/-- C10: when the mfapi.in response carries an empty `data` list,
`get_latest_nav` returns `nav = None` and `date = None` rather than
raising, and in every case the returned dict echoes the requested scheme
code. -/
theorem claim_C10 (parseF : String → ℚ) (sc : Int) (resp : MFResponse) :
    (get_latest_nav parseF sc resp).scheme_code = sc ∧
    (resp.data = [] →
      (get_latest_nav parseF sc resp).nav = none ∧
      (get_latest_nav parseF sc resp).date = none) := by
  refine ⟨rfl, fun h => ?_⟩
  constructor <;> simp [get_latest_nav, h, dictGet]

theorem claim_C10_witness :
    (get_latest_nav (fun _ => 0) 119551 ⟨[("fund_house", "Nippon")], []⟩).scheme_code = 119551 ∧
    (get_latest_nav (fun _ => 0) 119551 ⟨[("fund_house", "Nippon")], []⟩).nav = none ∧
    (get_latest_nav (fun _ => 0) 119551 ⟨[("fund_house", "Nippon")], []⟩).date = none := by
  have h := claim_C10 (fun _ => 0) 119551 ⟨[("fund_house", "Nippon")], []⟩
  exact ⟨h.1, (h.2 rfl).1, (h.2 rfl).2⟩

/-! ## C7 : calculate_sortino_weights -/

/-- C7: with at least one strictly positive score the weights are
supported exactly on the strictly positive entries, proportional to their
scores (each weight is the score divided by the sum of the positive
scores) and sum to 1; with no positive entry the result is the empty
series. -/
theorem claim_C7 (sortino : List (String × ℚ)) :
    ((∃ p ∈ sortino, 0 < p.2) →
      (calculate_sortino_weights sortino).map (fun p => p.1) =
        (sortino.filter (fun p => decide (0 < p.2))).map (fun p => p.1) ∧
      (∀ q ∈ calculate_sortino_weights sortino, ∃ v,
        (q.1, v) ∈ sortino ∧ 0 < v ∧
        q.2 = v / sumVals (sortino.filter (fun p => decide (0 < p.2)))) ∧
      sumVals (calculate_sortino_weights sortino) = 1) ∧
    ((∀ p ∈ sortino, ¬ 0 < p.2) → calculate_sortino_weights sortino = []) := by
  constructor
  · rintro ⟨p, hp, hpos⟩
    have hmem : p ∈ sortino.filter (fun p => decide (0 < p.2)) :=
      List.mem_filter.mpr ⟨hp, by simpa using hpos⟩
    have hne : sortino.filter (fun p => decide (0 < p.2)) ≠ [] := by
      intro h
      rw [h] at hmem
      exact absurd hmem (List.not_mem_nil p)
    have hEmpty : (sortino.filter (fun p => decide (0 < p.2))).isEmpty = false := by
      simpa [List.isEmpty_iff] using hne
    have hposall : ∀ q ∈ sortino.filter (fun p => decide (0 < p.2)), 0 < q.2 := by
      intro q hq
      simpa using (List.of_mem_filter hq)
    have hS : 0 < sumVals (sortino.filter (fun p => decide (0 < p.2))) :=
      sumVals_pos _ hne hposall
    refine ⟨?_, ?_, ?_⟩
    · rw [calculate_sortino_weights]
      simp only [hEmpty, if_neg Bool.false_ne_true]
      exact mapVal_keys _ _
    · intro q hq
      rw [calculate_sortino_weights] at hq
      simp only [hEmpty, if_neg Bool.false_ne_true] at hq
      simp only [mapVal, List.mem_map] at hq
      obtain ⟨r, hr, hrq⟩ := hq
      exact ⟨r.2, by
        have := List.mem_of_mem_filter hr
        simpa [← hrq] using this, hposall r hr, by rw [← hrq]⟩
    · rw [calculate_sortino_weights]
      simp only [hEmpty, if_neg Bool.false_ne_true]
      rw [sumVals_mapVal_div]
      exact div_self (ne_of_gt hS)
  · intro h
    have : sortino.filter (fun p => decide (0 < p.2)) = [] :=
      List.filter_eq_nil_iff.mpr (fun p hp => by simpa using h p hp)
    rw [calculate_sortino_weights]
    simp [this]

theorem claim_C7_witness :
    sumVals (calculate_sortino_weights [("WPM", 2), ("XOM", -1), ("GLD", 6)]) = 1 ∧
    calculate_sortino_weights [("MSTR", (-3 : ℚ))] = [] := by
  have h1 := (claim_C7 [("WPM", 2), ("XOM", -1), ("GLD", 6)]).1
    ⟨("WPM", 2), by simp, by norm_num⟩
  have h2 := (claim_C7 [("MSTR", (-3 : ℚ))]).2 (by norm_num)
  exact ⟨h1.2.2, h2⟩

/-! ## C4 : the two total-return constructions -/

theorem cumsumTerms_zero (c d : List ℚ) (h : ∀ x ∈ d, x = 0) (i : Nat) :
    cumsumTerms c d i = 0 := by
  induction i with
  | zero => simp [cumsumTerms, shiftDivTerm]
  | succ i ih =>
    rw [cumsumTerms, ih, shiftDivTerm, if_neg (Nat.succ_ne_zero i),
      getD_eq_zero_of_all_zero d h]
    simp

theorem cumDiv_zero (c d : List ℚ) (h : ∀ x ∈ d, x = 0) (i : Nat) :
    cumDiv c d i = 0 := by
  induction i with
  | zero => rfl
  | succ i ih =>
    rw [cumDiv, ih, divYield, getD_eq_zero_of_all_zero d h]
    simp

/-- C4 (amended): the vectorized sum form of allocate.py and the
compounded product form of us_portfolio_allocation.py agree — both equal
the raw close series — whenever every dividend is zero; the asserted
equality for arbitrary histories fails once two dividends compound (see
the counterexample). -/
theorem claim_C4 (c d : List ℚ) (h : ∀ x ∈ d, x = 0) :
    totalReturnCumsum c d = c ∧ totalReturnCompounded c d = c := by
  constructor
  · rw [totalReturnCumsum]
    calc (List.range c.length).map (fun i => c.getD i 0 * (1 + cumsumTerms c d i))
        = (List.range c.length).map (fun i => c.getD i 0) := by
          apply List.map_congr_left
          intro i _
          rw [cumsumTerms_zero c d h]
          ring
      _ = c := map_getD_range c
  · rw [totalReturnCompounded]
    calc (List.range c.length).map (fun i =>
          match i with
          | 0 => c.getD 0 0
          | j + 1 => c.getD (j + 1) 0 * (1 + cumDiv c d (j + 1)))
        = (List.range c.length).map (fun i => c.getD i 0) := by
          apply List.map_congr_left
          rintro (_ | j) _
          · rfl
          · show c.getD (j + 1) 0 * (1 + cumDiv c d (j + 1)) = c.getD (j + 1) 0
            rw [cumDiv_zero c d h]
            ring
      _ = c := map_getD_range c

theorem claim_C4_counterexample :
    totalReturnCumsum [1, 1, 1] [0, 1, 1] ≠
      totalReturnCompounded [1, 1, 1] [0, 1, 1] := by
  intro h
  have h2 := congrArg (fun l => l.getD 2 (0 : ℚ)) h
  norm_num [totalReturnCumsum, totalReturnCompounded, cumsumTerms,
    shiftDivTerm, cumDiv, divYield, List.range_succ] at h2

theorem claim_C4_witness :
    (∀ x ∈ ([0, 0] : List ℚ), x = 0) ∧
    totalReturnCumsum [2, 3] [0, 0] = [2, 3] ∧
    totalReturnCompounded [2, 3] [0, 0] = [2, 3] :=
  ⟨by simp, claim_C4 [2, 3] [0, 0] (by simp)⟩

/-! ## C3 : error handling in the data-fetch routines -/

/-- C3 (amended): in `canadian_nyse_only.fetch_total_return_index` (and
the nbs fetchers) an error raised while fetching one ticker is caught and
that ticker skipped, the remaining tickers processed unchanged; the
fetchers of us_portfolio_allocation.py and allocate.py catch nothing, so
there an HTTP error propagates (see the counterexample). -/
theorem claim_C3 (env : String → FetchResult) (t e : String)
    (rest : List String) (h : env t = FetchResult.err e) :
    canadianFetchTotalReturnIndex env (t :: rest) =
      canadianFetchTotalReturnIndex env rest := by
  rw [canadianFetchTotalReturnIndex, h]

theorem claim_C3_witness :
    canadianFetchTotalReturnIndex
      (fun t => if t = "WPM" then FetchResult.err "HTTPError"
        else FetchResult.ok [1, 2] [0, 0]) ["WPM", "PAAS"] =
    canadianFetchTotalReturnIndex
      (fun t => if t = "WPM" then FetchResult.err "HTTPError"
        else FetchResult.ok [1, 2] [0, 0]) ["PAAS"] :=
  claim_C3 _ "WPM" "HTTPError" ["PAAS"] (by simp)

theorem claim_C3_counterexample :
    usFetchTotalReturnIndex
      (fun t => if t = "WPM" then FetchResult.err "HTTPError"
        else FetchResult.ok [1, 2] [0, 0]) ["WPM", "PAAS"] =
      Except.error "HTTPError" ∧
    allocateFetch
      (fun t => if t = "WPM" then FetchResult.err "HTTPError"
        else FetchResult.ok [1, 2] [0, 0]) ["WPM", "PAAS"] =
      Except.error "HTTPError" ∧
    canadianFetchTotalReturnIndex
      (fun t => if t = "WPM" then FetchResult.err "HTTPError"
        else FetchResult.ok [1, 2] [0, 0]) ["WPM", "PAAS"] =
      [("PAAS", totalReturnCompounded [1, 2] [0, 0])] := by
  refine ⟨?_, ?_, ?_⟩
  · rw [usFetchTotalReturnIndex]
    simp
  · rw [allocateFetch]
    simp
  · rw [canadianFetchTotalReturnIndex]
    simp [canadianFetchTotalReturnIndex]

/-! ## More helper lemmas : positional evaluation -/

theorem getD_mem_of_lt (l : List ℚ) (i : Nat) (h : i < l.length) :
    l.getD i 0 ∈ l := by
  rw [List.getD_eq_getElem?_getD, List.getElem?_eq_getElem h]
  exact List.getElem_mem h

theorem getD_range_map (g : Nat → ℚ) (n i : Nat) (h : i < n) :
    ((List.range n).map g).getD i 0 = g i := by
  rw [List.getD_eq_getElem?_getD, List.getElem?_map,
    List.getElem?_range h]
  rfl

theorem pctChange_cons_cons (a b : ℚ) (l : List ℚ) :
    pctChange (a :: b :: l) = (b / a - 1) :: pctChange (b :: l) := rfl

theorem pctChange_length (s : List ℚ) :
    (pctChange s).length = s.length - 1 := by
  simp [pctChange]

theorem pctChange_getD (s : List ℚ) (i : Nat) (h : i + 1 < s.length) :
    (pctChange s).getD i 0 = s.getD (i + 1) 0 / s.getD i 0 - 1 := by
  induction s generalizing i with
  | nil => simp at h
  | cons a l ih =>
    cases l with
    | nil => simp at h
    | cons b l2 =>
      rw [pctChange_cons_cons]
      cases i with
      | zero => simp
      | succ i =>
        rw [List.getD_cons_succ, List.getD_cons_succ, List.getD_cons_succ]
        exact ih i (by simpa using Nat.lt_of_succ_lt_succ h)

/-! ## C8 : calculate_downside_volatility never zero? -/

/-- C8 (amended): `calculate_downside_volatility` returns a value for
every column of its input (the result carries exactly the input keys) and
returns `0.0001` for a ticker whose return series has no strictly
negative entry, so that case produces no zero divisor in
`calculate_combined_score`; a zero divisor is still possible when all the
strictly negative returns of a column coincide, since their standard
deviation is 0 (see the counterexample). -/
theorem claim_C8 (sqrtF : ℚ → ℚ) (sqrt252 : ℚ)
    (returns : List (String × List ℚ)) :
    (calculate_downside_volatility sqrtF sqrt252 returns).map (fun p => p.1) =
      returns.map (fun p => p.1) ∧
    (∀ t r, findPair returns t = some (t, r) →
      r.filter (fun x => decide (x < 0)) = [] →
      lookupQ (calculate_downside_volatility sqrtF sqrt252 returns) t =
        1 / 10000) := by
  constructor
  · exact mapVal_keys _ _
  · intro t r hfind hfil
    rw [calculate_downside_volatility, lookupQ_mapVal _ _ _ _ hfind,
      dvolCol]
    simp [hfil]

/-- A column whose two negative returns coincide has sample standard
deviation 0, hence downside volatility 0: the score division then divides
by zero.  Any model of the float square root sends 0 to 0; `id` is used
since only its value at 0 is evaluated here. -/
theorem claim_C8_counterexample :
    lookupQ (calculate_downside_volatility id 1
      [("T", [-1/100, -1/100])]) "T" = 0 := by
  have hfind : findPair [("T", ([-1/100, -1/100] : List ℚ))] "T" =
      some ("T", [-1/100, -1/100]) := by
    simp [findPair, List.find?]
  rw [calculate_downside_volatility, lookupQ_mapVal _ _ _ _ hfind, dvolCol]
  norm_num [List.filter, stdQ, sampleVar, sumVals]

theorem claim_C8_witness :
    lookupQ (calculate_downside_volatility id 1
      [("GLD", [1/100, 2/100])]) "GLD" = 1 / 10000 ∧
    (calculate_downside_volatility id 1
      [("GLD", [1/100, 2/100])]).map (fun p => p.1) = ["GLD"] := by
  have h := claim_C8 id 1 [("GLD", [1/100, 2/100])]
  refine ⟨h.2 "GLD" [1/100, 2/100] (by simp [findPair, List.find?])
    (by norm_num [List.filter]), ?_⟩
  rw [h.1]
  rfl

/-! ## C6 : the combined Sortino-like score -/

theorem momCol_of_le (s : List ℚ) (lb : Nat) (h : ¬ s.length < lb) :
    momCol s lb = s.getD (s.length - 1) 0 / s.getD (s.length - lb) 0 - 1 := by
  simp only [momCol]
  rw [if_neg h]

/-- C6: for a ticker with at least 126 observations and at least one
strictly negative daily return, the combined score equals
`(0.5 * mom_3m + 0.5 * mom_6m) / downside_vol`, where the momenta are
`prices.iloc[-1] / prices.iloc[-lookback] - 1` for lookbacks 63 and 126
and the downside volatility is the standard deviation of the strictly
negative daily returns times `sqrt(252)`. -/
theorem claim_C6 (sqrtF : ℚ → ℚ) (sqrt252 : ℚ)
    (prices : List (String × List ℚ)) (t : String) (s : List ℚ)
    (hfind : findPair prices t = some (t, s))
    (hlen : 126 ≤ s.length)
    (hneg : (pctChange s).filter (fun x => decide (x < 0)) ≠ []) :
    lookupQ (calculate_combined_score sqrtF sqrt252 prices
      (calculate_returns prices)).score t =
      (1/2 * (s.getD (s.length - 1) 0 / s.getD (s.length - 63) 0 - 1) +
       1/2 * (s.getD (s.length - 1) 0 / s.getD (s.length - 126) 0 - 1)) /
      (stdQ sqrtF ((pctChange s).filter (fun x => decide (x < 0))) * sqrt252) := by
  have h63 : findPair (calculate_momentum prices 63) t =
      some (t, momCol s 63) := by
    rw [calculate_momentum, findPair_mapVal, hfind]
    rfl
  have h126 : findPair (calculate_momentum prices 126) t =
      some (t, momCol s 126) := by
    rw [calculate_momentum, findPair_mapVal, hfind]
    rfl
  have hret : findPair (calculate_returns prices) t =
      some (t, pctChange s) := by
    rw [calculate_returns, findPair_mapVal, hfind]
    rfl
  have hs63 : findPair (seriesScale (1/2) (calculate_momentum prices 63)) t =
      some (t, 1/2 * momCol s 63) := by
    rw [seriesScale, findPair_mapVal, h63]
    rfl
  have hs126 : lookupQ (seriesScale (1/2) (calculate_momentum prices 126)) t =
      1/2 * momCol s 126 := by
    rw [seriesScale]
    exact lookupQ_mapVal _ _ _ _ h126
  have hcomb : findPair (seriesBinop (· + ·)
      (seriesScale (1/2) (calculate_momentum prices 63))
      (seriesScale (1/2) (calculate_momentum prices 126))) t =
      some (t, 1/2 * momCol s 63 + 1/2 * momCol s 126) := by
    rw [seriesBinop, findPair_mapVal, hs63, Option.map_some', hs126]
  have hdvol : lookupQ (calculate_downside_volatility sqrtF sqrt252
      (calculate_returns prices)) t =
      stdQ sqrtF ((pctChange s).filter (fun x => decide (x < 0))) * sqrt252 := by
    rw [calculate_downside_volatility, lookupQ_mapVal _ _ _ _ hret, dvolCol]
    have hpos : 0 < ((pctChange s).filter (fun x => decide (x < 0))).length :=
      List.length_pos.mpr hneg
    simp [hpos]
  simp only [calculate_combined_score]
  rw [seriesBinop, lookupQ_mapVal _ _ _ _ hcomb, hdvol,
    momCol_of_le s 63 (by omega), momCol_of_le s 126 (by omega)]

theorem claim_C6_witness :
    lookupQ (calculate_combined_score id 1 [("WPM", sW)]
      (calculate_returns [("WPM", sW)])).score "WPM" =
      (1/2 * (225/163 - 1) + 1/2 * (225/100 - 1)) /
      (stdQ id ((pctChange sW).filter (fun x => decide (x < 0))) * 1) := by
  have hlen : sW.length = 126 := by simp [sW]
  have hneg : (pctChange sW).filter (fun x => decide (x < 0)) ≠ [] := by
    have hmem : (pctChange sW).getD 99 0 ∈ pctChange sW := by
      apply getD_mem_of_lt
      rw [pctChange_length, hlen]
      norm_num
    have hval : (pctChange sW).getD 99 0 = 90 / 199 - 1 := by
      rw [pctChange_getD sW 99 (by rw [hlen]; norm_num), sW,
        getD_range_map fW 126 100 (by norm_num),
        getD_range_map fW 126 99 (by norm_num)]
      norm_num [fW]
    intro hnil
    have : (pctChange sW).getD 99 0 ∈
        (pctChange sW).filter (fun x => decide (x < 0)) := by
      apply List.mem_filter.mpr
      refine ⟨hmem, ?_⟩
      rw [hval]
      norm_num
    rw [hnil] at this
    exact absurd this (List.not_mem_nil _)
  have h := claim_C6 id 1 [("WPM", sW)] "WPM" sW
    (by simp [findPair, List.find?]) (by rw [hlen]) hneg
  rw [h, hlen]
  norm_num [sW, getD_range_map fW 126 125 (by norm_num),
    getD_range_map fW 126 63 (by norm_num),
    getD_range_map fW 126 0 (by norm_num), fW]

/-! ## C9 : drawdown metric invariants -/

theorem foldl_min_mem (xs : List ℚ) (x : ℚ) : xs.foldl min x ∈ x :: xs := by
  induction xs generalizing x with
  | nil => simp
  | cons y ys ih =>
    rw [List.foldl_cons]
    rcases List.mem_cons.mp (ih (min x y)) with heq | hmem
    · rw [heq]
      rcases min_choice x y with hc | hc <;> rw [hc] <;> simp
    · exact List.mem_cons_of_mem _ (List.mem_cons_of_mem _ hmem)

theorem foldl_min_le (xs : List ℚ) (x : ℚ) :
    ∀ y ∈ x :: xs, xs.foldl min x ≤ y := by
  induction xs generalizing x with
  | nil => simp
  | cons z zs ih =>
    intro y hy
    rw [List.foldl_cons]
    have hbase := ih (min x z) (min x z) (by simp)
    rcases List.mem_cons.mp hy with heq | hy2
    · rw [heq]
      exact le_trans hbase (min_le_left x z)
    · rcases List.mem_cons.mp hy2 with heq2 | hy3
      · rw [heq2]
        exact le_trans hbase (min_le_right x z)
      · exact ih (min x z) y (List.mem_cons_of_mem _ hy3)

theorem listMinQ_mem (l : List ℚ) (h : l ≠ []) : listMinQ l ∈ l := by
  cases l with
  | nil => exact absurd rfl h
  | cons x xs => exact foldl_min_mem xs x

theorem listMinQ_le (l : List ℚ) (y : ℚ) (hy : y ∈ l) : listMinQ l ≤ y := by
  cases l with
  | nil => exact absurd hy (List.not_mem_nil y)
  | cons x xs => exact foldl_min_le xs x y hy

theorem runningMaxAux_length (m : ℚ) (l : List ℚ) :
    (runningMaxAux m l).length = l.length := by
  induction l generalizing m with
  | nil => rfl
  | cons x xs ih => simp [runningMaxAux, ih]

theorem runningMax_length (l : List ℚ) : (runningMax l).length = l.length := by
  cases l with
  | nil => rfl
  | cons x xs => simp [runningMax, runningMaxAux_length]

theorem zipDD_nonpos_aux (m : ℚ) (hm : 0 < m) (l : List ℚ)
    (hl : ∀ x ∈ l, 0 < x) :
    ∀ y ∈ List.zipWith (fun v mx => (v - mx) / mx) l (runningMaxAux m l),
      y ≤ 0 := by
  induction l generalizing m with
  | nil => simp
  | cons x xs ih =>
    intro y hy
    rw [runningMaxAux, List.zipWith_cons_cons] at hy
    rcases List.mem_cons.mp hy with rfl | hy2
    · apply div_nonpos_of_nonpos_of_nonneg
      · simp
      · exact le_of_lt (lt_max_of_lt_right (hl x (by simp)))
    · exact ih (max m x) (lt_max_of_lt_left hm)
        (fun z hz => hl z (by simp [hz])) y hy2

theorem drawdownSeries_nonpos (p : List ℚ) (hp : ∀ x ∈ p, 0 < x) :
    ∀ y ∈ drawdownSeries p, y ≤ 0 := by
  cases p with
  | nil => simp [drawdownSeries]
  | cons x xs =>
    intro y hy
    rw [drawdownSeries, runningMax, List.zipWith_cons_cons] at hy
    rcases List.mem_cons.mp hy with rfl | hy2
    · simp
    · exact zipDD_nonpos_aux x (hp x (by simp)) xs
        (fun z hz => hp z (by simp [hz])) y hy2

theorem drawdownSeries_length (p : List ℚ) :
    (drawdownSeries p).length = p.length := by
  simp [drawdownSeries, runningMax_length]

theorem le_foldl_natmax (ds : List Nat) (acc : Nat) :
    acc ≤ ds.foldl Nat.max acc ∧ ∀ n ∈ ds, n ≤ ds.foldl Nat.max acc := by
  induction ds generalizing acc with
  | nil => simp
  | cons d ds ih =>
    rw [List.foldl_cons]
    obtain ⟨h1, h2⟩ := ih (Nat.max acc d)
    refine ⟨le_trans (Nat.le_max_left acc d) h1, ?_⟩
    intro n hn
    rcases List.mem_cons.mp hn with rfl | hn2
    · exact le_trans (Nat.le_max_right acc n) h1
    · exact h2 n hn2

theorem sum_cast_nonneg (ds : List Nat) :
    0 ≤ (ds.map (fun n : Nat => (n : ℚ))).sum := by
  induction ds with
  | nil => simp
  | cons d ds ih =>
    rw [List.map_cons, List.sum_cons]
    positivity

theorem sum_cast_le_card_mul (ds : List Nat) (b : ℚ) (_hb : 0 ≤ b)
    (h : ∀ n ∈ ds, (n : ℚ) ≤ b) :
    (ds.map (fun n : Nat => (n : ℚ))).sum ≤ ds.length * b := by
  induction ds with
  | nil => simp
  | cons d ds ih =>
    rw [List.map_cons, List.sum_cons, List.length_cons]
    have h1 := h d (by simp)
    have h2 := ih (fun n hn => h n (by simp [hn]))
    push_cast
    linarith

theorem rolling3mDDs_nonpos (p : List ℚ) (hp : ∀ x ∈ p, 0 < x) :
    ∀ y ∈ rolling3mDDs p, y ≤ 0 := by
  intro y hy
  rw [rolling3mDDs] at hy
  obtain ⟨i, hi, rfl⟩ := List.mem_map.mp hy
  have hi2 := List.mem_filter.mp hi
  have hilt : i < p.length := List.mem_range.mp hi2.1
  have hw : ((p.drop (i - 63)).take 63) ≠ [] := by
    have hlen : ((p.drop (i - 63)).take 63).length =
        min 63 (p.length - (i - 63)) := by
      simp [List.length_take, List.length_drop]
    intro hnil
    rw [hnil] at hlen
    simp only [List.length_nil] at hlen
    omega
  have hwpos : ∀ x ∈ (p.drop (i - 63)).take 63, 0 < x := by
    intro x hx
    exact hp x (List.drop_subset _ _ (List.take_subset _ _ hx))
  rw [windowDD]
  have hdd : List.zipWith (fun v m => (v - m) / m) ((p.drop (i - 63)).take 63)
      (runningMax ((p.drop (i - 63)).take 63)) =
      drawdownSeries ((p.drop (i - 63)).take 63) := rfl
  rw [hdd]
  have hddne : drawdownSeries ((p.drop (i - 63)).take 63) ≠ [] := by
    intro hnil
    have := drawdownSeries_length ((p.drop (i - 63)).take 63)
    rw [hnil] at this
    simp only [List.length_nil] at this
    exact hw (List.eq_nil_of_length_eq_zero this.symm)
  exact listMinQ_le _ _ (listMinQ_mem _ hddne) |>.trans
    (drawdownSeries_nonpos _ hwpos _ (listMinQ_mem _ hddne)) |>.trans le_rfl

/-- C9 (amended): for every nonempty price series of strictly positive
prices, the metrics satisfy `max_drawdown ≤ current_drawdown ≤ 0`,
`worst_rolling_3m_dd ≤ 0` and `max_dd_duration_days ≥
avg_dd_duration_days ≥ 0`; positivity is required, since a series
dipping below zero makes a drawdown positive (see the counterexample). -/
theorem claim_C9 (prices : List (String × List ℚ)) (t : String) (p : List ℚ)
    (hfind : findPair prices t = some (t, p)) (hne : p ≠ [])
    (hpos : ∀ x ∈ p, 0 < x) :
    (lookupD (calculate_drawdown_metrics prices) t
      ⟨0, 0, 0, 0, 0⟩).max_drawdown ≤
      (lookupD (calculate_drawdown_metrics prices) t
        ⟨0, 0, 0, 0, 0⟩).current_drawdown ∧
    (lookupD (calculate_drawdown_metrics prices) t
      ⟨0, 0, 0, 0, 0⟩).current_drawdown ≤ 0 ∧
    (lookupD (calculate_drawdown_metrics prices) t
      ⟨0, 0, 0, 0, 0⟩).worst_rolling_3m_dd ≤ 0 ∧
    (lookupD (calculate_drawdown_metrics prices) t
      ⟨0, 0, 0, 0, 0⟩).avg_dd_duration_days ≤
      ((lookupD (calculate_drawdown_metrics prices) t
        ⟨0, 0, 0, 0, 0⟩).max_dd_duration_days : ℚ) ∧
    0 ≤ (lookupD (calculate_drawdown_metrics prices) t
      ⟨0, 0, 0, 0, 0⟩).avg_dd_duration_days := by
  have hm : lookupD (calculate_drawdown_metrics prices) t ⟨0, 0, 0, 0, 0⟩ =
      drawdownMetricsCol p := by
    rw [calculate_drawdown_metrics, lookupD, findPair_mapVal, hfind]
    rfl
  rw [hm]
  have hddne : drawdownSeries p ≠ [] := by
    intro hnil
    have := drawdownSeries_length p
    rw [hnil] at this
    exact hne (List.eq_nil_of_length_eq_zero this.symm)
  have hddpos : 0 < (drawdownSeries p).length :=
    List.length_pos.mpr hddne
  have hcurmem : (drawdownSeries p).getD ((drawdownSeries p).length - 1) 0 ∈
      drawdownSeries p := getD_mem_of_lt _ _ (by omega)
  have hnonpos := drawdownSeries_nonpos p hpos
  simp only [drawdownMetricsCol]
  refine ⟨listMinQ_le _ _ hcurmem, hnonpos _ hcurmem, ?_, ?_, ?_⟩
  · by_cases hroll : (rolling3mDDs p).isEmpty
    · rw [if_pos hroll]
      exact hnonpos _ (listMinQ_mem _ hddne)
    · rw [if_neg hroll]
      have hrne : rolling3mDDs p ≠ [] := by
        simpa [List.isEmpty_iff] using hroll
      exact rolling3mDDs_nonpos p hpos _ (listMinQ_mem _ hrne)
  · by_cases hruns : (ddRuns ((drawdownSeries p).map
        (fun x => decide (x < 0)))).isEmpty
    · rw [if_pos hruns]
      have : ddRuns ((drawdownSeries p).map (fun x => decide (x < 0))) = [] := by
        simpa [List.isEmpty_iff] using hruns
      rw [this]
      simp
    · rw [if_neg hruns]
      set ds := ddRuns ((drawdownSeries p).map (fun x => decide (x < 0)))
        with hds
      have hdsne : ds ≠ [] := by
        simpa [List.isEmpty_iff] using hruns
      have hdslen : 0 < (ds.length : ℚ) := by
        have := List.length_pos.mpr hdsne
        exact_mod_cast this
      rw [div_le_iff₀ hdslen]
      have hmax := le_foldl_natmax ds 0
      have : (ds.map (fun n : Nat => (n : ℚ))).sum ≤
          ds.length * ((ds.foldl Nat.max 0 : Nat) : ℚ) := by
        apply sum_cast_le_card_mul _ _ (by positivity)
        intro n hn
        exact_mod_cast hmax.2 n hn
      linarith
  · by_cases hruns : (ddRuns ((drawdownSeries p).map
        (fun x => decide (x < 0)))).isEmpty
    · rw [if_pos hruns]
    · rw [if_neg hruns]
      apply div_nonneg (sum_cast_nonneg _)
      positivity

theorem claim_C9_counterexample :
    (lookupD (calculate_drawdown_metrics [("T", [-1, -2])]) "T"
      ⟨0, 0, 0, 0, 0⟩).current_drawdown = 1 ∧
    ¬ (lookupD (calculate_drawdown_metrics [("T", [-1, -2])]) "T"
      ⟨0, 0, 0, 0, 0⟩).current_drawdown ≤ 0 := by
  have hm : lookupD (calculate_drawdown_metrics [("T", [-1, -2])]) "T"
      ⟨0, 0, 0, 0, 0⟩ = drawdownMetricsCol [-1, -2] := by
    rw [calculate_drawdown_metrics, lookupD, findPair_mapVal]
    simp [findPair, List.find?]
  rw [hm]
  simp only [drawdownMetricsCol]
  norm_num [drawdownSeries, runningMax, runningMaxAux, List.zipWith]

theorem claim_C9_witness :
    (lookupD (calculate_drawdown_metrics [("T", [4, 2, 3])]) "T"
      ⟨0, 0, 0, 0, 0⟩).max_drawdown ≤
      (lookupD (calculate_drawdown_metrics [("T", [4, 2, 3])]) "T"
        ⟨0, 0, 0, 0, 0⟩).current_drawdown ∧
    (lookupD (calculate_drawdown_metrics [("T", [4, 2, 3])]) "T"
      ⟨0, 0, 0, 0, 0⟩).current_drawdown ≤ 0 ∧
    (lookupD (calculate_drawdown_metrics [("T", [4, 2, 3])]) "T"
      ⟨0, 0, 0, 0, 0⟩).worst_rolling_3m_dd ≤ 0 ∧
    (lookupD (calculate_drawdown_metrics [("T", [4, 2, 3])]) "T"
      ⟨0, 0, 0, 0, 0⟩).avg_dd_duration_days ≤
      ((lookupD (calculate_drawdown_metrics [("T", [4, 2, 3])]) "T"
        ⟨0, 0, 0, 0, 0⟩).max_dd_duration_days : ℚ) ∧
    0 ≤ (lookupD (calculate_drawdown_metrics [("T", [4, 2, 3])]) "T"
      ⟨0, 0, 0, 0, 0⟩).avg_dd_duration_days :=
  claim_C9 [("T", [4, 2, 3])] "T" [4, 2, 3]
    (by simp [findPair, List.find?]) (by simp) (by norm_num)

/-! ## C1, C2 : apply_constraints -/

theorem map_if_id {α : Type} (l : List α) (c : α → Prop) [DecidablePred c]
    (f : α → α) (h : ∀ p ∈ l, ¬ c p) :
    (l.map fun p => if c p then f p else p) = l := by
  induction l with
  | nil => rfl
  | cons p l ih =>
    rw [List.map_cons, if_neg (h p (by simp)),
      ih (fun q hq => h q (by simp [hq]))]

theorem stepFloorMin_false (minA : ℚ) (a : List (String × ℚ))
    (h : (stepFloorMin minA a).2 = false) :
    (stepFloorMin minA a).1 = a ∧ ∀ p ∈ a, ¬ (0 < p.2 ∧ p.2 < minA) := by
  have hall : ∀ p ∈ a, ¬ (0 < p.2 ∧ p.2 < minA) := by
    intro p hp
    have := List.any_eq_false.mp h p hp
    simpa using this
  exact ⟨map_if_id a _ _ hall, hall⟩

theorem stepCapMax_false (maxA : ℚ) (a : List (String × ℚ))
    (h : (stepCapMax maxA a).2 = false) :
    (stepCapMax maxA a).1 = a ∧ ∀ p ∈ a, ¬ (p.2 > maxA) := by
  have hall : ∀ p ∈ a, ¬ (p.2 > maxA) := by
    intro p hp
    have := List.any_eq_false.mp h p hp
    simpa using this
  exact ⟨map_if_id a _ _ hall, hall⟩

theorem stepSectorCap_false (sector : List String) (cap : ℚ)
    (a : List (String × ℚ)) (h : (stepSectorCap sector cap a).2 = false) :
    (stepSectorCap sector cap a).1 = a ∧ sectorTotal sector a ≤ cap := by
  rw [stepSectorCap] at h ⊢
  by_cases hc : sectorTotal sector a > cap
  · rw [if_pos hc] at h
    exact absurd h (by simp)
  · rw [if_neg hc]
    exact ⟨rfl, le_of_not_lt hc⟩

theorem stepRenormalize_false (a : List (String × ℚ))
    (h : (stepRenormalize a).2 = false) :
    (stepRenormalize a).1 = a ∧ |allocTotal a - TOTAL_CAPITAL| ≤ 1 := by
  rw [stepRenormalize] at h ⊢
  by_cases hc : |allocTotal a - TOTAL_CAPITAL| > 1
  · rw [if_pos hc] at h
    exact absurd h (by simp)
  · rw [if_neg hc]
    exact ⟨rfl, le_of_not_lt hc⟩

theorem onePass_false (minA maxA : ℚ) (a : List (String × ℚ))
    (h : (onePass minA maxA a).2 = false) :
    (onePass minA maxA a).1 = a ∧
    (∀ p ∈ a, ¬ (0 < p.2 ∧ p.2 < minA)) ∧
    (∀ p ∈ a, ¬ (p.2 > maxA)) ∧
    sectorTotal SECTOR_GOLD a ≤ TOTAL_CAPITAL * SECTOR_CAP_PCT ∧
    sectorTotal SECTOR_SILVER a ≤ TOTAL_CAPITAL * SECTOR_CAP_PCT ∧
    sectorTotal SECTOR_PRECIOUS_MIXED a ≤ TOTAL_CAPITAL * SECTOR_CAP_PCT ∧
    sectorTotal SECTOR_OIL_GAS a ≤ TOTAL_CAPITAL * SECTOR_CAP_PCT ∧
    sectorTotal SECTOR_EX_US_VALUE a ≤ TOTAL_CAPITAL * SECTOR_CAP_PCT ∧
    |allocTotal a - TOTAL_CAPITAL| ≤ 1 := by
  simp only [onePass, Bool.or_eq_false_iff] at h
  obtain ⟨⟨⟨⟨⟨⟨⟨h1, h2⟩, h3⟩, h4⟩, h5⟩, h6⟩, h7⟩, h8⟩ := h
  obtain ⟨e1, c1⟩ := stepFloorMin_false _ _ h1
  rw [e1] at h2
  obtain ⟨e2, c2⟩ := stepCapMax_false _ _ h2
  rw [e1, e2] at h3
  obtain ⟨e3, c3⟩ := stepSectorCap_false _ _ _ h3
  rw [e1, e2, e3] at h4
  obtain ⟨e4, c4⟩ := stepSectorCap_false _ _ _ h4
  rw [e1, e2, e3, e4] at h5
  obtain ⟨e5, c5⟩ := stepSectorCap_false _ _ _ h5
  rw [e1, e2, e3, e4, e5] at h6
  obtain ⟨e6, c6⟩ := stepSectorCap_false _ _ _ h6
  rw [e1, e2, e3, e4, e5, e6] at h7
  obtain ⟨e7, c7⟩ := stepSectorCap_false _ _ _ h7
  rw [e1, e2, e3, e4, e5, e6, e7] at h8
  obtain ⟨e8, c8⟩ := stepRenormalize_false _ h8
  refine ⟨?_, c1, c2, c3, c4, c5, c6, c7, c8⟩
  simp only [onePass]
  rw [e1, e2, e3, e4, e5, e6, e7, e8]

theorem stepFloorMin_nonneg (minA : ℚ) (a : List (String × ℚ))
    (h : ∀ p ∈ a, 0 ≤ p.2) : ∀ p ∈ (stepFloorMin minA a).1, 0 ≤ p.2 := by
  intro p hp
  rw [stepFloorMin] at hp
  obtain ⟨q, hq, hqe⟩ := List.mem_map.mp hp
  by_cases hc : 0 < q.2 ∧ q.2 < minA
  · rw [if_pos hc] at hqe
    rw [← hqe]
  · rw [if_neg hc] at hqe
    rw [← hqe]
    exact h q hq

theorem stepCapMax_nonneg (maxA : ℚ) (hmax : 0 ≤ maxA)
    (a : List (String × ℚ)) (h : ∀ p ∈ a, 0 ≤ p.2) :
    ∀ p ∈ (stepCapMax maxA a).1, 0 ≤ p.2 := by
  intro p hp
  rw [stepCapMax] at hp
  obtain ⟨q, hq, hqe⟩ := List.mem_map.mp hp
  by_cases hc : q.2 > maxA
  · rw [if_pos hc] at hqe
    rw [← hqe]
    exact hmax
  · rw [if_neg hc] at hqe
    rw [← hqe]
    exact h q hq

theorem stepSectorCap_nonneg (sector : List String) (cap : ℚ)
    (hcap : 0 ≤ cap) (a : List (String × ℚ)) (h : ∀ p ∈ a, 0 ≤ p.2) :
    ∀ p ∈ (stepSectorCap sector cap a).1, 0 ≤ p.2 := by
  intro p hp
  rw [stepSectorCap] at hp
  by_cases hc : sectorTotal sector a > cap
  · rw [if_pos hc] at hp
    obtain ⟨q, hq, hqe⟩ := List.mem_map.mp hp
    by_cases hs : sector.contains q.1
    · rw [if_pos hs] at hqe
      rw [← hqe]
      have htot : (0 : ℚ) < sectorTotal sector a := lt_of_le_of_lt hcap hc
      exact mul_nonneg (h q hq) (div_nonneg hcap (le_of_lt htot))
    · rw [if_neg hs] at hqe
      rw [← hqe]
      exact h q hq
  · rw [if_neg hc] at hp
    exact h p hp

theorem stepRenormalize_nonneg (a : List (String × ℚ))
    (h : ∀ p ∈ a, 0 ≤ p.2) : ∀ p ∈ (stepRenormalize a).1, 0 ≤ p.2 := by
  intro p hp
  rw [stepRenormalize] at hp
  by_cases hc : |allocTotal a - TOTAL_CAPITAL| > 1
  · rw [if_pos hc] at hp
    obtain ⟨q, hq, hqe⟩ := List.mem_map.mp hp
    rw [← hqe]
    have h1 : (0 : ℚ) ≤ TOTAL_CAPITAL := by norm_num [TOTAL_CAPITAL]
    have h2 : (0 : ℚ) ≤ allocTotal a :=
      sumVals_nonneg a h
    exact mul_nonneg (h q hq) (div_nonneg h1 h2)
  · rw [if_neg hc] at hp
    exact h p hp

theorem onePass_nonneg (minA maxA : ℚ) (hmax : 0 ≤ maxA)
    (a : List (String × ℚ)) (h : ∀ p ∈ a, 0 ≤ p.2) :
    ∀ p ∈ (onePass minA maxA a).1, 0 ≤ p.2 := by
  have hcap : (0 : ℚ) ≤ TOTAL_CAPITAL * SECTOR_CAP_PCT := by
    norm_num [TOTAL_CAPITAL, SECTOR_CAP_PCT]
  simp only [onePass]
  exact stepRenormalize_nonneg _
    (stepSectorCap_nonneg _ _ hcap _
      (stepSectorCap_nonneg _ _ hcap _
        (stepSectorCap_nonneg _ _ hcap _
          (stepSectorCap_nonneg _ _ hcap _
            (stepSectorCap_nonneg _ _ hcap _
              (stepCapMax_nonneg _ hmax _
                (stepFloorMin_nonneg _ _ h)))))))

theorem constraintLoop_nonneg (minA maxA : ℚ) (hmax : 0 ≤ maxA) (n : Nat)
    (a : List (String × ℚ)) (h : ∀ p ∈ a, 0 ≤ p.2) :
    ∀ p ∈ (constraintLoop minA maxA n a).1, 0 ≤ p.2 := by
  induction n generalizing a with
  | zero => exact h
  | succ n ih =>
    rw [constraintLoop]
    by_cases hc : (onePass minA maxA a).2
    · simp only [hc, if_pos]
      exact ih _ (onePass_nonneg minA maxA hmax a h)
    · simp only [hc, if_neg, if_false]
      exact onePass_nonneg minA maxA hmax a h

theorem constraintLoop_converged (minA maxA : ℚ) (n : Nat)
    (a : List (String × ℚ)) (h : (constraintLoop minA maxA n a).2 = true) :
    onePass minA maxA (constraintLoop minA maxA n a).1 =
      ((constraintLoop minA maxA n a).1, false) := by
  induction n generalizing a with
  | zero => simp [constraintLoop] at h
  | succ n ih =>
    rw [constraintLoop] at h ⊢
    by_cases hc : (onePass minA maxA a).2
    · simp only [hc, if_pos] at h ⊢
      exact ih _ h
    · simp only [hc, if_neg, if_false] at h ⊢
      have hfalse : (onePass minA maxA a).2 = false := by
        simpa using hc
      obtain ⟨e, -⟩ := onePass_false minA maxA a hfalse
      rw [e]
      calc onePass minA maxA a
          = ((onePass minA maxA a).1, (onePass minA maxA a).2) := rfl
        _ = (a, false) := by rw [e, hfalse]

theorem apply_constraints_fixedPoint (weights : List (String × ℚ))
    (minPct maxPct : ℚ)
    (h : (apply_constraints weights minPct maxPct).2 = true) :
    onePass (TOTAL_CAPITAL * minPct) (TOTAL_CAPITAL * maxPct)
      (apply_constraints weights minPct maxPct).1 =
      ((apply_constraints weights minPct maxPct).1, false) := by
  rw [apply_constraints] at h ⊢
  exact constraintLoop_converged _ _ 100 _ h

/-- C2 (amended): not every input converges — all weight in one capped
sector oscillates between the sector cap and the renormalization and the
loop exits on the 100-pass bound (see the counterexample) — but whenever
the loop does break early, the returned allocation is a fixed point: a
further pass changes nothing. -/
theorem claim_C2 (weights : List (String × ℚ)) (minPct maxPct : ℚ)
    (h : (apply_constraints weights minPct maxPct).2 = true) :
    onePass (TOTAL_CAPITAL * minPct) (TOTAL_CAPITAL * maxPct)
      (apply_constraints weights minPct maxPct).1 =
      ((apply_constraints weights minPct maxPct).1, false) :=
  apply_constraints_fixedPoint weights minPct maxPct h

/-- C1 (amended): for a nonnegative weight vector summing to 1 and a
nonnegative maximum-allocation percentage, whenever the iteration
converges (breaks before the 100-pass bound) the returned allocation has
every position equal to 0 or between `min_allocation_pct*TOTAL_CAPITAL`
and `max_allocation_pct*TOTAL_CAPITAL`, every defined sector total at
most 33 percent of `TOTAL_CAPITAL`, and a total within $1 of
`TOTAL_CAPITAL`; without convergence the sector caps can fail (see the
counterexample). -/
theorem claim_C1 (weights : List (String × ℚ)) (minPct maxPct : ℚ)
    (hw : ∀ p ∈ weights, 0 ≤ p.2) (_hsum : sumVals weights = 1)
    (hmaxPct : 0 ≤ maxPct)
    (hconv : (apply_constraints weights minPct maxPct).2 = true) :
    (∀ p ∈ (apply_constraints weights minPct maxPct).1,
      p.2 = 0 ∨ (TOTAL_CAPITAL * minPct ≤ p.2 ∧
        p.2 ≤ TOTAL_CAPITAL * maxPct)) ∧
    sectorTotal SECTOR_GOLD (apply_constraints weights minPct maxPct).1 ≤
      TOTAL_CAPITAL * SECTOR_CAP_PCT ∧
    sectorTotal SECTOR_SILVER (apply_constraints weights minPct maxPct).1 ≤
      TOTAL_CAPITAL * SECTOR_CAP_PCT ∧
    sectorTotal SECTOR_PRECIOUS_MIXED
      (apply_constraints weights minPct maxPct).1 ≤
      TOTAL_CAPITAL * SECTOR_CAP_PCT ∧
    sectorTotal SECTOR_OIL_GAS (apply_constraints weights minPct maxPct).1 ≤
      TOTAL_CAPITAL * SECTOR_CAP_PCT ∧
    sectorTotal SECTOR_EX_US_VALUE
      (apply_constraints weights minPct maxPct).1 ≤
      TOTAL_CAPITAL * SECTOR_CAP_PCT ∧
    |allocTotal (apply_constraints weights minPct maxPct).1 -
      TOTAL_CAPITAL| ≤ 1 := by
  have hfix := apply_constraints_fixedPoint weights minPct maxPct hconv
  have hflag : (onePass (TOTAL_CAPITAL * minPct) (TOTAL_CAPITAL * maxPct)
      (apply_constraints weights minPct maxPct).1).2 = false := by
    rw [hfix]
  obtain ⟨-, c1, c2, c3, c4, c5, c6, c7, c8⟩ :=
    onePass_false _ _ _ hflag
  have hnn : ∀ p ∈ (apply_constraints weights minPct maxPct).1, 0 ≤ p.2 := by
    rw [apply_constraints]
    apply constraintLoop_nonneg _ _ _ 100
    · intro p hp
      obtain ⟨q, hq, hqe⟩ := List.mem_map.mp hp
      rw [← hqe]
      exact mul_nonneg (hw q hq) (by norm_num [TOTAL_CAPITAL])
    · exact mul_nonneg (by norm_num [TOTAL_CAPITAL]) hmaxPct
  refine ⟨?_, c3, c4, c5, c6, c7, c8⟩
  intro p hp
  rcases eq_or_lt_of_le (hnn p hp) with heq | hlt
  · exact Or.inl heq.symm
  · right
    constructor
    · by_contra hout
      exact c1 p hp ⟨hlt, lt_of_not_le hout⟩
    · exact le_of_not_lt (c2 p hp)

theorem string_beq_eq_decide (a b : String) : (a == b) = decide (a = b) := by
  by_cases h : a = b
  · subst h
    simp
  · simp [h, beq_eq_false_iff_ne.mpr h]

theorem constraintLoop_succ (minA maxA : ℚ) (n : Nat)
    (a : List (String × ℚ)) :
    constraintLoop minA maxA (n + 1) a =
      if (onePass minA maxA a).2 then
        constraintLoop minA maxA n (onePass minA maxA a).1
      else ((onePass minA maxA a).1, true) := rfl

theorem sectorTotal_singleton_not_mem (sector : List String) (k : String)
    (v : ℚ) (h : sector.contains k = false) :
    sectorTotal sector [(k, v)] = 0 := by
  induction sector with
  | nil => rfl
  | cons t ts ih =>
    simp only [List.contains_cons, Bool.or_eq_false_iff] at h
    rw [sectorTotal, List.map_cons, List.sum_cons]
    have h1 : lookupQ [(k, v)] t = 0 := by
      simp [lookupQ, lookupD, findPair, List.find?, h.1]
    rw [h1, ← sectorTotal, ih h.2, add_zero]

theorem sectorTotal_gold_mstr (v : ℚ) :
    sectorTotal SECTOR_GOLD [("MSTR", v)] = 0 :=
  sectorTotal_singleton_not_mem _ _ _ (by decide)

theorem sectorTotal_silver_mstr (v : ℚ) :
    sectorTotal SECTOR_SILVER [("MSTR", v)] = 0 :=
  sectorTotal_singleton_not_mem _ _ _ (by decide)

theorem sectorTotal_mixed_mstr (v : ℚ) :
    sectorTotal SECTOR_PRECIOUS_MIXED [("MSTR", v)] = 0 :=
  sectorTotal_singleton_not_mem _ _ _ (by decide)

theorem sectorTotal_oil_mstr (v : ℚ) :
    sectorTotal SECTOR_OIL_GAS [("MSTR", v)] = 0 :=
  sectorTotal_singleton_not_mem _ _ _ (by decide)

theorem sectorTotal_exus_mstr (v : ℚ) :
    sectorTotal SECTOR_EX_US_VALUE [("MSTR", v)] = 0 :=
  sectorTotal_singleton_not_mem _ _ _ (by decide)

theorem mstr_pass_unchanged :
    onePass (TOTAL_CAPITAL * (1/20)) (TOTAL_CAPITAL * 1)
      [("MSTR", (60000 : ℚ))] = ([("MSTR", 60000)], false) := by
  simp only [onePass, stepFloorMin, stepCapMax, stepSectorCap,
    stepRenormalize]
  norm_num [sectorTotal_gold_mstr, sectorTotal_silver_mstr,
    sectorTotal_mixed_mstr, sectorTotal_oil_mstr, sectorTotal_exus_mstr,
    allocTotal, sumVals, TOTAL_CAPITAL, SECTOR_CAP_PCT]

theorem mstr_converged :
    (apply_constraints [("MSTR", 1)] (1/20) 1).2 = true := by
  show (constraintLoop (TOTAL_CAPITAL * (1/20)) (TOTAL_CAPITAL * 1) 100
    (mapVal (fun _ w => w * TOTAL_CAPITAL) [("MSTR", (1 : ℚ))])).2 = true
  have ha : mapVal (fun _ w => w * TOTAL_CAPITAL) [("MSTR", (1 : ℚ))] =
      [("MSTR", (60000 : ℚ))] := by
    norm_num [mapVal, TOTAL_CAPITAL]
  rw [ha, show (100 : Nat) = 99 + 1 from rfl, constraintLoop_succ,
    mstr_pass_unchanged]
  simp

theorem claim_C2_witness :
    (apply_constraints [("MSTR", 1)] (1/20) 1).2 = true ∧
    onePass (TOTAL_CAPITAL * (1/20)) (TOTAL_CAPITAL * 1)
      (apply_constraints [("MSTR", 1)] (1/20) 1).1 =
      ((apply_constraints [("MSTR", 1)] (1/20) 1).1, false) :=
  ⟨mstr_converged, claim_C2 [("MSTR", 1)] (1/20) 1 mstr_converged⟩

theorem claim_C1_witness :
    (∀ p ∈ (apply_constraints [("MSTR", 1)] (1/20) 1).1,
      p.2 = 0 ∨ (TOTAL_CAPITAL * (1/20) ≤ p.2 ∧
        p.2 ≤ TOTAL_CAPITAL * 1)) ∧
    sectorTotal SECTOR_GOLD (apply_constraints [("MSTR", 1)] (1/20) 1).1 ≤
      TOTAL_CAPITAL * SECTOR_CAP_PCT ∧
    sectorTotal SECTOR_SILVER (apply_constraints [("MSTR", 1)] (1/20) 1).1 ≤
      TOTAL_CAPITAL * SECTOR_CAP_PCT ∧
    sectorTotal SECTOR_PRECIOUS_MIXED
      (apply_constraints [("MSTR", 1)] (1/20) 1).1 ≤
      TOTAL_CAPITAL * SECTOR_CAP_PCT ∧
    sectorTotal SECTOR_OIL_GAS (apply_constraints [("MSTR", 1)] (1/20) 1).1 ≤
      TOTAL_CAPITAL * SECTOR_CAP_PCT ∧
    sectorTotal SECTOR_EX_US_VALUE
      (apply_constraints [("MSTR", 1)] (1/20) 1).1 ≤
      TOTAL_CAPITAL * SECTOR_CAP_PCT ∧
    |allocTotal (apply_constraints [("MSTR", 1)] (1/20) 1).1 -
      TOTAL_CAPITAL| ≤ 1 :=
  claim_C1 [("MSTR", 1)] (1/20) 1 (by norm_num) (by norm_num [sumVals])
    (by norm_num) mstr_converged

theorem sectorTotal_gold_fnv (v : ℚ) :
    sectorTotal SECTOR_GOLD [("FNV", v)] = v := by
  have h1 : lookupQ [("FNV", v)] "FNV" = v := by
    simp [lookupQ, lookupD, findPair, List.find?]
  have h2 : lookupQ [("FNV", v)] "AEM" = 0 := by
    have hb : (("FNV" : String) == "AEM") = false := by decide
    simp [lookupQ, lookupD, findPair, List.find?, hb]
  simp [sectorTotal, SECTOR_GOLD, h1, h2]

theorem sectorTotal_silver_fnv (v : ℚ) :
    sectorTotal SECTOR_SILVER [("FNV", v)] = 0 :=
  sectorTotal_singleton_not_mem _ _ _ (by decide)

theorem sectorTotal_mixed_fnv (v : ℚ) :
    sectorTotal SECTOR_PRECIOUS_MIXED [("FNV", v)] = 0 :=
  sectorTotal_singleton_not_mem _ _ _ (by decide)

theorem sectorTotal_oil_fnv (v : ℚ) :
    sectorTotal SECTOR_OIL_GAS [("FNV", v)] = 0 :=
  sectorTotal_singleton_not_mem _ _ _ (by decide)

theorem sectorTotal_exus_fnv (v : ℚ) :
    sectorTotal SECTOR_EX_US_VALUE [("FNV", v)] = 0 :=
  sectorTotal_singleton_not_mem _ _ _ (by decide)

theorem gold_contains_fnv : SECTOR_GOLD.contains "FNV" = true := by decide

theorem fnv_mem_gold : "FNV" ∈ SECTOR_GOLD := by
  simp [SECTOR_GOLD]

theorem fnv_pass_oscillates :
    onePass (TOTAL_CAPITAL * (1/20)) (TOTAL_CAPITAL * 1)
      [("FNV", (60000 : ℚ))] = ([("FNV", 60000)], true) := by
  simp only [onePass, stepFloorMin, stepCapMax, stepSectorCap,
    stepRenormalize]
  norm_num [sectorTotal_gold_fnv, sectorTotal_silver_fnv,
    sectorTotal_mixed_fnv, sectorTotal_oil_fnv, sectorTotal_exus_fnv,
    gold_contains_fnv, fnv_mem_gold, allocTotal, sumVals, TOTAL_CAPITAL,
    SECTOR_CAP_PCT]

theorem fnv_loop_never_converges (n : Nat) :
    constraintLoop (TOTAL_CAPITAL * (1/20)) (TOTAL_CAPITAL * 1) n
      [("FNV", (60000 : ℚ))] = ([("FNV", 60000)], false) := by
  induction n with
  | zero => rfl
  | succ n ih =>
    rw [constraintLoop_succ, fnv_pass_oscillates]
    simpa using ih

theorem fnv_apply_constraints_eval :
    apply_constraints [("FNV", 1)] (1/20) 1 = ([("FNV", 60000)], false) := by
  show constraintLoop (TOTAL_CAPITAL * (1/20)) (TOTAL_CAPITAL * 1) 100
    (mapVal (fun _ w => w * TOTAL_CAPITAL) [("FNV", (1 : ℚ))]) = _
  have ha : mapVal (fun _ w => w * TOTAL_CAPITAL) [("FNV", (1 : ℚ))] =
      [("FNV", (60000 : ℚ))] := by
    norm_num [mapVal, TOTAL_CAPITAL]
  rw [ha, fnv_loop_never_converges]

theorem claim_C1_counterexample :
    (∀ p ∈ [(("FNV" : String), (1 : ℚ))], 0 ≤ p.2) ∧
    sumVals [(("FNV" : String), (1 : ℚ))] = 1 ∧
    ¬ (sectorTotal SECTOR_GOLD
      (apply_constraints [("FNV", 1)] (1/20) 1).1 ≤
      TOTAL_CAPITAL * SECTOR_CAP_PCT) := by
  refine ⟨by norm_num, by norm_num [sumVals], ?_⟩
  rw [fnv_apply_constraints_eval]
  norm_num [sectorTotal_gold_fnv, TOTAL_CAPITAL, SECTOR_CAP_PCT]

theorem claim_C2_counterexample :
    (apply_constraints [("FNV", 1)] (1/20) 1).2 = false := by
  rw [fnv_apply_constraints_eval]

/-! ## C5 : allocate.py -/

theorem sumVals_mapVal_mul (l : List (String × ℚ)) (k : ℚ) :
    sumVals (mapVal (fun _ v => v * k) l) = sumVals l * k := by
  induction l with
  | nil => simp [sumVals_nil, mapVal]
  | cons p l ih =>
    rw [show mapVal (fun _ v => v * k) (p :: l) =
      (p.1, p.2 * k) :: mapVal (fun _ v => v * k) l from rfl,
      sumVals_cons, sumVals_cons, ih, add_mul]

theorem mapVal_ne_nil (g : String → α → β) (l : List (String × α))
    (h : l ≠ []) : mapVal g l ≠ [] := by
  cases l with
  | nil => exact absurd rfl h
  | cons p l => exact List.cons_ne_nil _ _

theorem allocPass_sum (capital min_w max_w : ℚ) (a : List (String × ℚ))
    (hc : 0 < capital) (hmin : 0 < min_w) (hmm : min_w ≤ max_w)
    (hne : a ≠ []) :
    sumVals (allocPass capital min_w max_w a) = capital := by
  rw [allocPass]
  set floored := mapVal
    (fun _ v => if v < capital * min_w then capital * min_w else v) a
    with hfl
  set capped := mapVal
    (fun _ v => if v > capital * max_w then capital * max_w else v) floored
    with hcp
  have hlb : ∀ q ∈ capped, capital * min_w ≤ q.2 := by
    intro q hq
    rw [hcp, mapVal] at hq
    obtain ⟨r, hr, hre⟩ := List.mem_map.mp hq
    rw [hfl, mapVal] at hr
    obtain ⟨s, _, hse⟩ := List.mem_map.mp hr
    have hrlb : capital * min_w ≤ r.2 := by
      rw [← hse]
      by_cases hcase : s.2 < capital * min_w
      · rw [if_pos hcase]
      · rw [if_neg hcase]
        exact le_of_not_lt hcase
    rw [← hre]
    by_cases hcase : r.2 > capital * max_w
    · rw [if_pos hcase]
      exact mul_le_mul_of_nonneg_left hmm (le_of_lt hc)
    · rw [if_neg hcase]
      exact hrlb
  have hcne : capped ≠ [] :=
    mapVal_ne_nil _ _ (mapVal_ne_nil _ _ hne)
  have hS : 0 < sumVals capped := by
    apply sumVals_pos _ hcne
    intro q hq
    exact lt_of_lt_of_le (mul_pos hc hmin) (hlb q hq)
  rw [sumVals_mapVal_mul, mul_comm, div_mul_cancel₀ _ (ne_of_gt hS)]

theorem allocLoop_succ (capital min_w max_w : ℚ) (n : Nat)
    (a : List (String × ℚ)) :
    allocLoop capital min_w max_w (n + 1) a =
      allocLoop capital min_w max_w n (allocPass capital min_w max_w a) := rfl

theorem allocPass_ne_nil (capital min_w max_w : ℚ)
    (a : List (String × ℚ)) (h : a ≠ []) :
    allocPass capital min_w max_w a ≠ [] := by
  simp only [allocPass]
  exact mapVal_ne_nil _ _ (mapVal_ne_nil _ _ (mapVal_ne_nil _ _ h))

theorem allocLoop_sum (capital min_w max_w : ℚ)
    (hc : 0 < capital) (hmin : 0 < min_w) (hmm : min_w ≤ max_w) (n : Nat)
    (a : List (String × ℚ)) (hne : a ≠ []) :
    sumVals (allocLoop capital min_w max_w (n + 1) a) = capital := by
  induction n generalizing a with
  | zero =>
    rw [allocLoop_succ]
    show sumVals (allocPass capital min_w max_w a) = capital
    exact allocPass_sum capital min_w max_w a hc hmin hmm hne
  | succ n ih =>
    rw [allocLoop_succ]
    exact ih _ (allocPass_ne_nil capital min_w max_w a hne)

/-- C5 (amended): `allocate` selects the `top_n` tickers with the largest
score and weights them by the 12w-2w momentum clipped at 0; since the
10-pass min/max loop ends with a renormalization, the pre-rounding
allocation sums exactly to `capital`, but an individual position can end
outside `[min_w*capital, max_w*capital]` (see the counterexample) and the
returned values are the pre-rounding ones rounded to the nearest $1000
(multiples of $1000, ties to even). -/
theorem claim_C5 (sqrtF : ℚ → ℚ) (sqrt252 : ℚ)
    (prices : List (String × List ℚ)) (capital : ℚ) (top_n : Nat)
    (min_w max_w : ℚ) (hc : 0 < capital) (hmin : 0 < min_w)
    (hmm : min_w ≤ max_w)
    (hne : selectedAllocMom sqrtF sqrt252 prices top_n ≠ []) :
    sumVals (allocatePreRound sqrtF sqrt252 prices capital top_n
      min_w max_w) = capital ∧
    ∀ p ∈ allocate sqrtF sqrt252 prices capital top_n min_w max_w,
      ∃ k : Int, p.2 = (k : ℚ) * 1000 := by
  constructor
  · show sumVals (allocLoop capital min_w max_w 10
      (mapVal (fun _ v => v / sumVals (selectedAllocMom sqrtF sqrt252
        prices top_n) * capital) (selectedAllocMom sqrtF sqrt252 prices
        top_n))) = capital
    rw [show (10 : Nat) = 9 + 1 from rfl]
    exact allocLoop_sum capital min_w max_w hc hmin hmm 9 _
      (mapVal_ne_nil _ _ hne)
  · intro p hp
    rw [allocate, mapVal] at hp
    obtain ⟨q, _, hqe⟩ := List.mem_map.mp hp
    exact ⟨roundHalfEven (q.2 / 1000), by rw [← hqe]⟩

theorem allocate_ce_mom :
    lookupQ (momPair pricesCE 10 60) "AAA" = 25 / 146 := by
  have hfind : findPair pricesCE "AAA" = some ("AAA", seriesCE) := by
    simp [pricesCE, findPair, List.find?]
  rw [momPair, lookupQ_mapVal _ _ _ _ hfind, ilocNeg, ilocNeg]
  have hlen : seriesCE.length = 252 := by simp [seriesCE]
  rw [hlen, seriesCE,
    getD_range_map fCE 252 242 (by norm_num),
    getD_range_map fCE 252 192 (by norm_num)]
  norm_num [fCE]

theorem allocate_ce_selected :
    selectedAllocMom id 1 pricesCE 9 = [("AAA", 25 / 146)] := by
  have h0 : selectedAllocMom id 1 pricesCE 9 =
      [("AAA", max (lookupQ (momPair pricesCE 10 60) "AAA") 0)] := rfl
  rw [h0, allocate_ce_mom]
  norm_num

theorem allocate_ce_pass :
    allocPass 60000 (1/20) (3/10) [("AAA", (60000 : ℚ))] =
      [("AAA", 60000)] := by
  norm_num [allocPass, mapVal, sumVals]

theorem allocate_ce_loop (n : Nat) :
    allocLoop 60000 (1/20) (3/10) n [("AAA", (60000 : ℚ))] =
      [("AAA", 60000)] := by
  induction n with
  | zero => rfl
  | succ n ih =>
    rw [allocLoop_succ, allocate_ce_pass, ih]

theorem allocate_ce_preround :
    allocatePreRound id 1 pricesCE 60000 9 (1/20) (3/10) =
      [("AAA", 60000)] := by
  show allocLoop 60000 (1/20) (3/10) 10
    (mapVal (fun _ v => v / sumVals (selectedAllocMom id 1 pricesCE 9) *
      60000) (selectedAllocMom id 1 pricesCE 9)) = [("AAA", 60000)]
  rw [allocate_ce_selected]
  have ha : mapVal (fun _ v => v / sumVals [(("AAA" : String), (25 : ℚ)/146)] *
      60000) [("AAA", 25/146)] = [("AAA", (60000 : ℚ))] := by
    norm_num [mapVal, sumVals]
  rw [ha, allocate_ce_loop]

theorem claim_C5_counterexample :
    lookupQ (allocate id 1 pricesCE 60000 9 (1/20) (3/10)) "AAA" =
      60000 ∧
    ¬ (lookupQ (allocate id 1 pricesCE 60000 9 (1/20) (3/10)) "AAA" ≤
      (3/10) * 60000) := by
  have hall : allocate id 1 pricesCE 60000 9 (1/20) (3/10) =
      [("AAA", 60000)] := by
    rw [allocate, allocate_ce_preround]
    have hr : roundHalfEven ((60 : ℚ)) = 60 := by
      norm_num [roundHalfEven]
    norm_num [mapVal, hr]
  rw [hall]
  constructor
  · simp [lookupQ, lookupD, findPair, List.find?]
  · simp only [lookupQ, lookupD, findPair, List.find?]
    norm_num

theorem claim_C5_witness :
    sumVals (allocatePreRound id 1 pricesCE 60000 9 (1/20) (3/10)) =
      60000 ∧
    ∀ p ∈ allocate id 1 pricesCE 60000 9 (1/20) (3/10),
      ∃ k : Int, p.2 = (k : ℚ) * 1000 :=
  claim_C5 id 1 pricesCE 60000 9 (1/20) (3/10) (by norm_num)
    (by norm_num) (by norm_num)
    (by rw [allocate_ce_selected]; exact List.cons_ne_nil _ _)

end Invest
